import Mathlib

/-!
A verification development for the research-clerk repository.

The definitions below are shallow embeddings of the Python source:

* `src/research_clerk/utils.py` — path/key/tag validators, the schema
  validator `validate_suggestions`, and the hierarchical-path resolver
  `build_collection_hierarchy`.
* `src/research_clerk/backends/local_sqlite.py` — the `LocalSQLiteBackend`
  session (connect / backup / commit / rollback) and its mutation
  primitives (`add_to_collection`, `remove_from_collection`, `add_tags`,
  `create_collection`, `list_collections`).
* `src/research_clerk/apply_suggestions.py` and
  `src/research_clerk/apply_reorganization.py` — the batch appliers.

Machine-level details that the claims do not touch (sqlite row ids beyond
what the code reads back, random 8-character key generation, wall-clock
timestamps) are modelled by explicit counters and an effect trace; each
definition's doc comment names the Python function it embeds.
-/

namespace ResearchClerk

/-- Error taxonomy of the spec: `ValueError("... not found ...")` in the
source is `notFound`, the `RuntimeError` raised when Zotero holds the
database is `resourceBusy`, and a Python `KeyError` is `keyError`. -/
inductive Err where
  | notFound (msg : String)
  | resourceBusy
  | keyError
deriving DecidableEq, Repr

deriving instance DecidableEq for Except

/-! ## Python dict as an association list

A Python `dict` is modelled as a list of `(key, value)` pairs in
assignment order; `dictLookup` returns the value of the LAST assignment,
matching `d[k] = v` overwrite semantics. -/

/-- Lookup in an assignment list, last assignment wins (Python dict). -/
def dictLookup : List (String × String) → String → Option String
  | [], _ => Option.none
  | (q, k) :: rest, p =>
    match dictLookup rest p with
    | some r => some r
    | Option.none => if q = p then some k else Option.none

theorem dictLookup_nil (p : String) : dictLookup [] p = Option.none := rfl

theorem dictLookup_append (l₁ l₂ : List (String × String)) (p : String) :
    dictLookup (l₁ ++ l₂) p =
      match dictLookup l₂ p with
      | some r => some r
      | Option.none => dictLookup l₁ p := by
  induction l₁ with
  | nil => cases h : dictLookup l₂ p <;> simp [dictLookup, h]
  | cons a l ih =>
    obtain ⟨q, k⟩ := a
    cases h : dictLookup l₂ p with
    | some r => simp [dictLookup, ih, h]
    | none => cases h' : dictLookup l p <;> simp [dictLookup, ih, h, h']

theorem dictLookup_append_single (l : List (String × String)) (q k p : String) :
    dictLookup (l ++ [(q, k)]) p = if q = p then some k else dictLookup l p := by
  rw [dictLookup_append]
  by_cases h : q = p <;> simp [dictLookup, h]

theorem dictLookup_eq_none_iff (l : List (String × String)) (p : String) :
    dictLookup l p = Option.none ↔ ∀ e ∈ l, e.1 ≠ p := by
  induction l with
  | nil => simp [dictLookup]
  | cons a l ih =>
    obtain ⟨q, k⟩ := a
    simp only [dictLookup, List.mem_cons]
    cases h : dictLookup l p with
    | some r =>
      constructor
      · intro hc; exact absurd hc (by simp)
      · intro hall
        exfalso
        have hn : dictLookup l p = Option.none := ih.mpr fun e he => hall e (Or.inr he)
        rw [h] at hn
        exact Option.noConfusion hn
    | none =>
      have hl : ∀ e ∈ l, e.1 ≠ p := ih.mp h
      by_cases hq : q = p
      · simp only [if_pos hq]
        constructor
        · intro hc; exact absurd hc (by simp)
        · intro hall; exact absurd hq (hall (q, k) (Or.inl rfl))
      · simp only [if_neg hq]
        constructor
        · intro _ e he
          rcases he with rfl | he
          · exact hq
          · exact hl e he
        · intro _; trivial

theorem dictLookup_mem (l : List (String × String)) (p k : String)
    (h : dictLookup l p = some k) : (p, k) ∈ l := by
  induction l with
  | nil => exact absurd h (by simp [dictLookup])
  | cons a l ih =>
    obtain ⟨q, v⟩ := a
    cases hr : dictLookup l p with
    | some r =>
      simp only [dictLookup, hr] at h
      cases h
      exact List.mem_cons_of_mem _ (ih hr)
    | none =>
      simp only [dictLookup, hr] at h
      by_cases hq : q = p
      · rw [if_pos hq] at h
        cases h
        rw [← hq]
        exact List.mem_cons_self _ _
      · rw [if_neg hq] at h
        exact absurd h (by simp)

/-! ## PathValidator (`src/research_clerk/utils.py`) -/

/-- `MAX_COLLECTION_DEPTH` (utils.py line 8). -/
def MAX_COLLECTION_DEPTH : Nat := 3

/-- `MAX_TAGS_PER_ITEM` (utils.py line 9). -/
def MAX_TAGS_PER_ITEM : Nat := 5

/-- Number of occurrences of a slash, Python `s.count(\x27/\x27)`. -/
def countSlash (s : String) : Nat := s.data.count '/'

/-- Python `str.strip()`: drop leading and trailing whitespace. -/
def pyStrip (s : String) : String :=
  String.mk (((s.data.dropWhile Char.isWhitespace).reverse.dropWhile Char.isWhitespace).reverse)

/-- Python `path.split(\x27/\x27)` over the character list: split at every
slash, keeping empty segments. -/
def splitSlashAux : List Char → List Char → List String
  | [], acc => [String.mk acc.reverse]
  | c :: rest, acc =>
    if c = '/' then String.mk acc.reverse :: splitSlashAux rest []
    else splitSlashAux rest (c :: acc)

/-- Python `path.split(\x27/\x27)`. -/
def pySplitSlash (s : String) : List String := splitSlashAux s.data []

/-- A character allowed by the regex class `[A-Z0-9]`. -/
def isKeyChar (c : Char) : Bool := ('A' ≤ c && c ≤ 'Z') || ('0' ≤ c && c ≤ '9')

/-- The string consists of exactly 8 characters from `[A-Z0-9]`. -/
def isExactKey (s : String) : Bool := s.data.length = 8 && s.data.all isKeyChar

/-- Python `re.match(r\x27^[A-Z0-9]\x7b8\x7d$\x27, s)`: the dollar anchor
also matches just before one trailing newline. -/
def reMatchKey (s : String) : Bool :=
  isExactKey s ||
    (match s.data.reverse with
     | '\n' :: rest => isExactKey (String.mk rest.reverse)
     | _ => false)

/-- Python values as far as the validators inspect them (is it a `str`,
a `list`, a `dict`, or something else). -/
inductive PyVal where
  | str (s : String)
  | int (n : Int)
  | bool (b : Bool)
  | list (xs : List PyVal)
  | dict (fields : List (String × PyVal))
  | null

/-- Whether a Python value is a `str`. -/
def PyVal.isStr : PyVal → Bool
  | .str _ => true
  | _ => false

/-- First-assignment lookup in a dict literal; Python dict keys are
unique, so this agrees with dict lookup on any well-formed literal. -/
def pyGet : List (String × PyVal) → String → Option PyVal
  | [], _ => Option.none
  | (q, v) :: rest, p => if q = p then some v else pyGet rest p

/-- `validate_item_key` (utils.py lines 95-110); identical to the inline
check in apply_suggestions.py lines 45-48. -/
def validate_item_key (v : PyVal) (lbl : String) : Option String :=
  match v with
  | .str s =>
    if reMatchKey s then Option.none
    else some (lbl ++ ": \x27item_key\x27 must be 8 uppercase alphanumeric characters (got: " ++ s ++ ")")
  | _ => some (lbl ++ ": \x27item_key\x27 must be a string")

/-- `validate_collection_path` (utils.py lines 113-131); identical to
the inline check in apply_suggestions.py lines 52-57. -/
def validate_collection_path (v : PyVal) (field lbl : String) : Option String :=
  match v with
  | .str s =>
    if pyStrip s = "" then some (lbl ++ ": \x27" ++ field ++ "\x27 cannot be empty")
    else if countSlash s > MAX_COLLECTION_DEPTH - 1 then
      some (lbl ++ ": \x27" ++ field ++ "\x27 exceeds max 3 levels (got: " ++ s ++ ")")
    else Option.none
  | _ => some (lbl ++ ": \x27" ++ field ++ "\x27 must be a string")

/-- `validate_tags` (utils.py lines 134-151); identical to the inline
check in apply_suggestions.py lines 60-66. -/
def validate_tags (v : PyVal) (lbl : String) : Option String :=
  match v with
  | .list ts =>
    if ¬ (ts.all PyVal.isStr) then some (lbl ++ ": all tags must be strings")
    else if ts.length > MAX_TAGS_PER_ITEM then
      some (lbl ++ ": too many tags (max 5, got " ++ toString ts.length ++ ")")
    else Option.none
  | _ => some (lbl ++ ": \x27tags\x27 must be a list")

/-- The error messages one entry of a categorization batch contributes
(the body of the `for i, item in enumerate(...)` loop, apply_suggestions.py
lines 35-72 = utils.py lines 180-213). -/
def entry_errors (i : Nat) (item : PyVal) : List String :=
  let lbl := "Item " ++ toString i
  match item with
  | .dict f =>
    (match pyGet f "item_key" with
     | Option.none => [lbl ++ ": missing \x27item_key\x27"]
     | some v => (validate_item_key v lbl).toList) ++
    (match pyGet f "collection_path" with
     | Option.none => [lbl ++ ": missing \x27collection_path\x27"]
     | some v => (validate_collection_path v "collection_path" lbl).toList) ++
    (match pyGet f "tags" with
     | Option.none => []
     | some v => (validate_tags v lbl).toList) ++
    (match pyGet f "title" with
     | Option.none => []
     | some v => if v.isStr then [] else [lbl ++ ": \x27title\x27 must be a string"]) ++
    (match pyGet f "reasoning" with
     | Option.none => []
     | some v => if v.isStr then [] else [lbl ++ ": \x27reasoning\x27 must be a string"])
  | _ => [lbl ++ ": must be an object"]

/-- The entry loop of `validate_suggestions`, accumulating errors in
entry order (apply_suggestions.py lines 35-72). -/
def validate_items_loop : Nat → List PyVal → List String
  | _, [] => []
  | i, item :: rest => entry_errors i item ++ validate_items_loop (i + 1) rest

/-- `validate_suggestions` (apply_suggestions.py lines 9-74 = utils.py
lines 154-215). -/
def validate_suggestions (data : PyVal) : List String :=
  match data with
  | .dict f =>
    match pyGet f "items" with
    | Option.none => ["Missing required \x27items\x27 field"]
    | some (.list items) =>
      if items.length = 0 then [] else validate_items_loop 0 items
    | some _ => ["\x27items\x27 must be a list"]
  | _ => ["Root must be a JSON object"]

/-! ## HierarchyResolver (`utils.build_collection_hierarchy`)

The snapshot `existing_collections` is modelled as the list of
`(collection key, computed path)` pairs in dict iteration order; the dict
comprehension `\x7bcoll[\x27path\x27]: key ...\x7d` is `pathIndexOf`.
`backend.create_collection` is observed through a creation log: the 8-char
random key of the source is modelled by a fresh-key counter. -/

/-- One `backend.create_collection(part, parent_key)` call made by the
resolver, together with the `path_so_far` at which it was made. -/
structure CreatedNode where
  key : String
  name : String
  parent : Option String
  path : String
deriving DecidableEq, Repr

/-- Resolver session state: `new_collection_cache` (in insertion order),
the log of `create_collection` calls, and the fresh-key supply standing
in for `generate_key()`. -/
structure BState where
  cache : List (String × String)
  log : List CreatedNode
  ctr : Nat
deriving DecidableEq, Repr

/-- Stand-in for `generate_key()` (local_sqlite.py lines 11-14): the
source draws 8 random characters; the model draws from a counter. -/
def genKey (n : Nat) : String := "NEW" ++ toString n

/-- The dict comprehension `\x7bcoll[\x27path\x27]: key for key, coll in
existing_collections.items()\x7d` (utils.py line 72). -/
def pathIndexOf (snap : List (String × String)) : List (String × String) :=
  snap.map (fun kc => (kc.2, kc.1))

/-- Lookup in `collection_keys` after `collection_keys.update(new_collection_cache)`
(utils.py lines 72-73): a cache entry overrides a snapshot entry. -/
def mergedLookup (snap : List (String × String)) (cache : List (String × String))
    (p : String) : Option String :=
  match dictLookup cache p with
  | some k => some k
  | Option.none => dictLookup (pathIndexOf snap) p

/-- The `for i, part in enumerate(parts)` loop of
`build_collection_hierarchy` (utils.py lines 79-89): `done` holds the
segments already consumed, `rest` the segments still to walk, and
`path_so_far` is recomputed as the slash-join of the consumed segments. -/
def hierWalk (snap : List (String × String)) :
    List String → List String → Option String → BState → BState
  | _, [], _, st => st
  | done, part :: rest, parentKey, st =>
    let pathSoFar := String.intercalate "/" (done ++ [part])
    match mergedLookup snap st.cache pathSoFar with
    | some k => hierWalk snap (done ++ [part]) rest (some k) st
    | Option.none =>
      let k := genKey st.ctr
      hierWalk snap (done ++ [part]) rest (some k)
        { cache := st.cache ++ [(pathSoFar, k)]
          log := st.log ++ [⟨k, part, parentKey, pathSoFar⟩]
          ctr := st.ctr + 1 }

/-- `build_collection_hierarchy` (utils.py lines 47-92): split the path,
walk it level by level, and return `collection_keys[collection_path]`. -/
def build_collection_hierarchy (snap : List (String × String)) (path : String)
    (st : BState) : Option String × BState :=
  let st' := hierWalk snap [] (pySplitSlash path) Option.none st
  (mergedLookup snap st'.cache path, st')

/-- First key in the snapshot whose path matches: the
`for key, coll in existing_collections.items(): if coll["path"] == path:
break` scan of apply_reorganization.py (lines 126-130 and 143-148). -/
def firstKeyWithPath (snap : List (String × String)) (p : String) : Option String :=
  (snap.find? (fun kc => kc.2 = p)).map (fun kc => kc.1)

/-- One level of the inline resolver of `apply_reorganization`
(lines 142-153): an existing snapshot node wins over the
`new_collection_keys` cache. -/
def reorgResolveLevel (snap newKeys : List (String × String)) (pathSoFar : String) :
    Option String :=
  match firstKeyWithPath snap pathSoFar with
  | some k => some k
  | Option.none => dictLookup newKeys pathSoFar

/-! ### Resolver lemmas -/

/-- The paths at which the resolver called `create_collection`. -/
def logPaths (log : List CreatedNode) : List String := log.map (·.path)

/-- The keys returned by the resolver's `create_collection` calls. -/
def logKeys (log : List CreatedNode) : List String := log.map (·.key)

/-- `k` is the key of some pre-existing snapshot node. -/
def keyInSnap (snap : List (String × String)) (k : String) : Bool :=
  snap.any (fun kc => kc.1 == k)

/-- Every created node's parent is a snapshot key or the key of an
earlier creation (`ks` accumulates keys created before the list). -/
def wellParented (snap : List (String × String)) :
    List CreatedNode → List String → Bool
  | [], _ => true
  | e :: rest, ks =>
    (match e.parent with
     | Option.none => true
     | some pk => keyInSnap snap pk || ks.any (fun x => x == pk)) &&
    wellParented snap rest (ks ++ [e.key])

theorem mergedLookup_append_single (snap cache : List (String × String))
    (q k p : String) :
    mergedLookup snap (cache ++ [(q, k)]) p =
      if q = p then some k else mergedLookup snap cache p := by
  unfold mergedLookup
  rw [dictLookup_append_single]
  by_cases h : q = p <;> simp [h]

theorem mergedLookup_eq_none (snap cache : List (String × String)) (p : String)
    (h : mergedLookup snap cache p = Option.none) :
    dictLookup cache p = Option.none ∧ dictLookup (pathIndexOf snap) p = Option.none := by
  unfold mergedLookup at h
  cases hc : dictLookup cache p with
  | some r => rw [hc] at h; exact Option.noConfusion h
  | none => rw [hc] at h; exact ⟨rfl, h⟩

/-- Once a path resolves to a key, walking any further segments never
changes that resolution: the resolver only adds fresh paths. -/
theorem hierWalk_stable (snap : List (String × String)) :
    ∀ (rest done : List String) (parent : Option String) (st : BState)
      (p k : String),
      mergedLookup snap st.cache p = some k →
      mergedLookup snap (hierWalk snap done rest parent st).cache p = some k := by
  intro rest
  induction rest with
  | nil => intro done parent st p k h; simpa [hierWalk] using h
  | cons part rest ih =>
    intro done parent st p k h
    simp only [hierWalk]
    cases hm : mergedLookup snap st.cache (String.intercalate "/" (done ++ [part])) with
    | some q => exact ih _ _ _ _ _ h
    | none =>
      apply ih
      rw [mergedLookup_append_single]
      by_cases hp : String.intercalate "/" (done ++ [part]) = p
      · rw [hp] at hm; rw [hm] at h; exact Option.noConfusion h
      · rw [if_neg hp]; exact h

/-- After the walk, every nonempty prefix of the walked segments
resolves in the session's view. -/
theorem hierWalk_covers (snap : List (String × String)) :
    ∀ (rest done : List String) (parent : Option String) (st : BState) (j : Nat),
      0 < j → j ≤ rest.length →
      (mergedLookup snap (hierWalk snap done rest parent st).cache
        (String.intercalate "/" (done ++ rest.take j))).isSome := by
  intro rest
  induction rest with
  | nil =>
    intro _ _ _ j hj hj'
    exact absurd (Nat.lt_of_lt_of_le hj hj') (by simp)
  | cons part rest ih =>
    intro done parent st j hj hj'
    match j, hj with
    | 1, _ =>
      simp only [List.take_succ_cons, List.take_zero]
      simp only [hierWalk]
      cases hm : mergedLookup snap st.cache (String.intercalate "/" (done ++ [part])) with
      | some q =>
        rw [hierWalk_stable snap _ _ _ _ _ _ hm]
        rfl
      | none =>
        have : mergedLookup snap (st.cache ++
            [(String.intercalate "/" (done ++ [part]), genKey st.ctr)])
            (String.intercalate "/" (done ++ [part])) = some (genKey st.ctr) := by
          rw [mergedLookup_append_single, if_pos rfl]
        rw [hierWalk_stable snap _ _ _ _ _ _ this]
        rfl
    | j + 2, _ =>
      have hlen : j + 1 ≤ rest.length := by
        simpa [Nat.succ_le_succ_iff] using hj'
      have harr : done ++ (part :: rest).take (j + 2) =
          (done ++ [part]) ++ rest.take (j + 1) := by
        simp [List.take_succ_cons]
      rw [harr]
      simp only [hierWalk]
      cases hm : mergedLookup snap st.cache (String.intercalate "/" (done ++ [part])) with
      | some q => exact ih (done ++ [part]) _ _ _ (Nat.succ_pos _) hlen
      | none => exact ih (done ++ [part]) _ _ _ (Nat.succ_pos _) hlen

/-- If every nonempty prefix of the remaining segments already resolves,
the walk is the identity: nothing is created, nothing is cached. -/
theorem hierWalk_id_of_covered (snap : List (String × String)) :
    ∀ (rest done : List String) (parent : Option String) (st : BState),
      (∀ j, 0 < j → j ≤ rest.length →
        (mergedLookup snap st.cache
          (String.intercalate "/" (done ++ rest.take j))).isSome) →
      hierWalk snap done rest parent st = st := by
  intro rest
  induction rest with
  | nil => intro _ _ _ _; rfl
  | cons part rest ih =>
    intro done parent st hcov
    have h1 : (mergedLookup snap st.cache
        (String.intercalate "/" (done ++ [part]))).isSome := by
      have := hcov 1 Nat.one_pos (by simp)
      simpa [List.take_succ_cons] using this
    simp only [hierWalk]
    cases hm : mergedLookup snap st.cache (String.intercalate "/" (done ++ [part])) with
    | some q =>
      apply ih (done ++ [part])
      intro j hj hj'
      have := hcov (j + 1) (Nat.succ_pos _) (by simpa [Nat.succ_le_succ_iff] using hj')
      simpa [List.take_succ_cons, List.append_assoc] using this
    | none => rw [hm] at h1; exact absurd h1 (by simp)

/-- Appending a creation whose parent is a snapshot key or an
already-created key preserves `wellParented`. -/
theorem wellParented_append (snap : List (String × String)) (e : CreatedNode) :
    ∀ (l : List CreatedNode) (ks : List String),
      wellParented snap l ks = true →
      (match e.parent with
       | Option.none => true
       | some pk => keyInSnap snap pk || (ks ++ logKeys l).any (fun x => x == pk)) = true →
      wellParented snap (l ++ [e]) ks = true := by
  intro l
  induction l with
  | nil =>
    intro ks _ he
    simp only [List.nil_append, wellParented, Bool.and_eq_true]
    refine ⟨?_, by trivial⟩
    simpa [logKeys] using he
  | cons f l ih =>
    intro ks hwp he
    simp only [wellParented, Bool.and_eq_true] at hwp
    simp only [List.cons_append, wellParented, Bool.and_eq_true]
    refine ⟨hwp.1, ?_⟩
    apply ih _ hwp.2
    cases hp : e.parent with
    | none => rfl
    | some pk =>
      have he' := he
      rw [hp] at he'
      simpa [logKeys, List.append_assoc] using he'

/-- The resolver-session invariant: the cache records exactly the
creations (path ↦ key); no path was created twice; no created path was
already a snapshot path; every creation's parent pre-exists it. -/
def InvB (snap : List (String × String)) (st : BState) : Prop :=
  st.cache = st.log.map (fun e => (e.path, e.key)) ∧
  (logPaths st.log).Nodup ∧
  (∀ e ∈ st.log, dictLookup (pathIndexOf snap) e.path = Option.none) ∧
  wellParented snap st.log [] = true

/-- The parent key handed to the next level is `None`, a snapshot key,
or the key of a node already in the creation log. -/
def parentArgOK (snap : List (String × String)) (st : BState) :
    Option String → Prop
  | Option.none => True
  | some pk => keyInSnap snap pk = true ∨ pk ∈ logKeys st.log

theorem logKeys_append (l₁ l₂ : List CreatedNode) :
    logKeys (l₁ ++ l₂) = logKeys l₁ ++ logKeys l₂ := by
  simp [logKeys]

theorem logPaths_append (l₁ l₂ : List CreatedNode) :
    logPaths (l₁ ++ l₂) = logPaths l₁ ++ logPaths l₂ := by
  simp [logPaths]

/-- A cache hit under the invariant yields the key of some logged
creation. -/
theorem cache_hit_is_logged (snap : List (String × String)) (st : BState)
    (hinv : InvB snap st) (p k : String)
    (h : dictLookup st.cache p = some k) : k ∈ logKeys st.log := by
  have hmem := dictLookup_mem _ _ _ h
  rw [hinv.1] at hmem
  rcases List.mem_map.mp hmem with ⟨e, he, heq⟩
  have : e.key = k := congrArg Prod.snd heq
  rw [← this]
  exact List.mem_map_of_mem _ he

/-- A snapshot-index hit yields a snapshot key. -/
theorem snap_hit_in_snap (snap : List (String × String)) (p k : String)
    (h : dictLookup (pathIndexOf snap) p = some k) : keyInSnap snap k = true := by
  have hmem := dictLookup_mem _ _ _ h
  unfold pathIndexOf at hmem
  rcases List.mem_map.mp hmem with ⟨kc, hkc, heq⟩
  have : kc.1 = k := congrArg Prod.snd heq
  unfold keyInSnap
  rw [List.any_eq_true]
  exact ⟨kc, hkc, by simp [this]⟩

/-- A merged hit under the invariant satisfies `parentArgOK`. -/
theorem merged_hit_parentOK (snap : List (String × String)) (st : BState)
    (hinv : InvB snap st) (p k : String)
    (h : mergedLookup snap st.cache p = some k) :
    parentArgOK snap st (some k) := by
  unfold mergedLookup at h
  cases hc : dictLookup st.cache p with
  | some r =>
    rw [hc] at h
    cases h
    exact Or.inr (cache_hit_is_logged snap st hinv p _ hc)
  | none =>
    rw [hc] at h
    exact Or.inl (snap_hit_in_snap snap p k h)

/-- Walking any segment list preserves the resolver invariant. -/
theorem hierWalk_inv (snap : List (String × String)) :
    ∀ (rest done : List String) (parent : Option String) (st : BState),
      InvB snap st → parentArgOK snap st parent →
      InvB snap (hierWalk snap done rest parent st) := by
  intro rest
  induction rest with
  | nil => intro _ _ _ hinv _; exact hinv
  | cons part rest ih =>
    intro done parent st hinv hpar
    simp only [hierWalk]
    cases hm : mergedLookup snap st.cache (String.intercalate "/" (done ++ [part])) with
    | some q => exact ih _ _ _ hinv (merged_hit_parentOK snap st hinv _ _ hm)
    | none =>
      obtain ⟨hcnone, hsnone⟩ := mergedLookup_eq_none snap st.cache _ hm
      set pathSoFar := String.intercalate "/" (done ++ [part]) with hpsf
      set e : CreatedNode := ⟨genKey st.ctr, part, parent, pathSoFar⟩ with hedef
      set st' : BState :=
        { cache := st.cache ++ [(pathSoFar, genKey st.ctr)]
          log := st.log ++ [e]
          ctr := st.ctr + 1 } with hst'
      have hfresh : pathSoFar ∉ logPaths st.log := by
        intro hmemp
        rcases List.mem_map.mp hmemp with ⟨f, hf, hfp⟩
        rw [hinv.1] at hcnone
        rw [dictLookup_eq_none_iff] at hcnone
        exact hcnone (f.path, f.key) (List.mem_map_of_mem _ hf) hfp
      have hinv' : InvB snap st' := by
        refine ⟨?_, ?_, ?_, ?_⟩
        · show st.cache ++ [(pathSoFar, genKey st.ctr)] =
            (st.log ++ [e]).map (fun f => (f.path, f.key))
          rw [List.map_append, ← hinv.1]
          rfl
        · show (logPaths (st.log ++ [e])).Nodup
          rw [logPaths_append]
          apply List.Nodup.append hinv.2.1 (by simp [logPaths])
          intro a ha hb
          have : a = pathSoFar := by
            simpa [logPaths, hedef] using hb
          rw [this] at ha
          exact hfresh ha
        · intro f hf
          rcases List.mem_append.mp hf with hf | hf
          · exact hinv.2.2.1 f hf
          · have : f = e := by simpa using hf
            rw [this]
            exact hsnone
        · apply wellParented_append snap e st.log [] hinv.2.2.2
          cases hp : e.parent with
          | none => rfl
          | some pk =>
            have : parent = some pk := hp
            rw [this] at hpar
            rcases hpar with hk | hk
            · simp [hk]
            · simp only [List.nil_append, Bool.or_eq_true, List.any_eq_true]
              exact Or.inr ⟨pk, hk, by simp⟩
      have hpar' : parentArgOK snap st' (some (genKey st.ctr)) := by
        refine Or.inr ?_
        show genKey st.ctr ∈ logKeys (st.log ++ [e])
        rw [logKeys_append]
        simp [logKeys, hedef]
      exact ih _ _ _ hinv' hpar'

/-! ## MutationStore (`src/research_clerk/backends/local_sqlite.py`)

The Zotero database is modelled by the rows the backend reads or writes:
`items` (itemID, key), `colls` (the collections table), `links`
(collectionItems rows `(collectionID, itemID, orderIndex)`), `tags`
(tagID, name), `itemTags` (itemID, tagID), the `deletedCollections` id
set, and a row-id counter standing in for sqlite autoincrement and for
`generate_key()`. -/

/-- A row of the `collections` table. -/
structure Coll where
  collectionID : Nat
  name : String
  parent : Option Nat
  key : String
deriving DecidableEq, Repr

/-- The database state as seen by `LocalSQLiteBackend`. -/
structure DB where
  items : List (Nat × String)
  colls : List Coll
  links : List (Nat × Nat × Int)
  tags : List (Nat × String)
  itemTags : List (Nat × Nat)
  deletedCollections : List Nat
  nextRowId : Nat
deriving DecidableEq, Repr

/-- `SELECT itemID FROM items WHERE key = ?` + `fetchone()`. -/
def findItemID (db : DB) (key : String) : Option Nat :=
  (db.items.find? (fun r => r.2 == key)).map (fun r => r.1)

/-- `SELECT collectionID FROM collections WHERE key = ?` + `fetchone()`. -/
def findCollID (db : DB) (key : String) : Option Nat :=
  (db.colls.find? (fun c => c.key == key)).map (fun c => c.collectionID)

/-- SQL `MAX` over a column: `NULL` (`none`) on an empty set. -/
def sqlMax : List Int → Option Int
  | [] => Option.none
  | x :: xs =>
    match sqlMax xs with
    | Option.none => some x
    | some m => some (max x m)

theorem sqlMax_eq_none (l : List Int) (h : sqlMax l = Option.none) : l = [] := by
  cases l with
  | nil => rfl
  | cons x xs =>
    exfalso
    simp only [sqlMax] at h
    cases hs : sqlMax xs <;> rw [hs] at h <;> exact Option.noConfusion h

theorem sqlMax_is_ub (l : List Int) (m : Int) (h : sqlMax l = some m) :
    ∀ v ∈ l, v ≤ m := by
  induction l generalizing m with
  | nil => intro v hv; cases hv
  | cons x xs ih =>
    intro v hv
    simp only [sqlMax] at h
    cases hs : sqlMax xs with
    | none =>
      rw [hs] at h
      cases h
      rcases List.mem_cons.mp hv with rfl | hv
      · exact le_refl _
      · rw [sqlMax_eq_none xs hs] at hv
        cases hv
    | some m' =>
      rw [hs] at h
      cases h
      rcases List.mem_cons.mp hv with rfl | hv
      · exact le_max_left _ _
      · exact le_trans (ih m' hs v hv) (le_max_right _ _)

/-- The orderIndex values of the links of one collection
(`SELECT ... FROM collectionItems WHERE collectionID = ?`). -/
def collOrderIndices (db : DB) (collID : Nat) : List Int :=
  (db.links.filter (fun l => l.1 == collID)).map (fun l => l.2.2)

/-- `COALESCE(MAX(orderIndex), -1) + 1` (local_sqlite.py lines 261-266). -/
def nextOrderIndex (db : DB) (collID : Nat) : Int :=
  (sqlMax (collOrderIndices db collID)).getD (-1) + 1

/-- The pair is already linked (`SELECT 1 FROM collectionItems WHERE
itemID = ? AND collectionID = ?`). -/
def linkExists (db : DB) (collID itemID : Nat) : Bool :=
  db.links.any (fun l => l.1 == collID && l.2.1 == itemID)

/-- `add_to_collection` (local_sqlite.py lines 236-274): resolve both
keys, skip when the link exists, otherwise insert with the next
orderIndex. -/
def add_to_collection (db : DB) (itemKey collKey : String) : Except Err DB :=
  match findItemID db itemKey with
  | Option.none => .error (.notFound ("Item not found: " ++ itemKey))
  | some itemID =>
    match findCollID db collKey with
    | Option.none => .error (.notFound ("Collection not found: " ++ collKey))
    | some collID =>
      if linkExists db collID itemID then .ok db
      else .ok { db with links := db.links ++ [(collID, itemID, nextOrderIndex db collID)] }

/-- `remove_from_collection` (local_sqlite.py lines 368-390): resolve
both keys, then `DELETE FROM collectionItems WHERE itemID = ? AND
collectionID = ?`. -/
def remove_from_collection (db : DB) (itemKey collKey : String) : Except Err DB :=
  match findItemID db itemKey with
  | Option.none => .error (.notFound ("Item not found: " ++ itemKey))
  | some itemID =>
    match findCollID db collKey with
    | Option.none => .error (.notFound ("Collection not found: " ++ collKey))
    | some collID =>
      .ok { db with links := db.links.filter (fun l => ¬(l.2.1 == itemID && l.1 == collID)) }

/-- The per-tag body of `add_tags` (local_sqlite.py lines 285-308):
get-or-create the tag row, then insert the item-tag row unless present. -/
def addOneTag (db : DB) (itemID : Nat) (name : String) : DB :=
  let found := db.tags.find? (fun t => t.2 == name)
  let tagID := match found with
    | some t => t.1
    | Option.none => db.nextRowId
  let db1 := match found with
    | some _ => db
    | Option.none =>
      { db with tags := db.tags ++ [(db.nextRowId, name)], nextRowId := db.nextRowId + 1 }
  if db1.itemTags.any (fun p => p.1 == itemID && p.2 == tagID) then db1
  else { db1 with itemTags := db1.itemTags ++ [(itemID, tagID)] }

/-- `add_tags` (local_sqlite.py lines 276-310). -/
def add_tags (db : DB) (itemKey : String) (tagNames : List String) : Except Err DB :=
  match findItemID db itemKey with
  | Option.none => .error (.notFound ("Item not found: " ++ itemKey))
  | some itemID => .ok (tagNames.foldl (fun d t => addOneTag d itemID t) db)

/-- `create_collection` (local_sqlite.py lines 207-234): resolve the
parent key if given, generate a key, insert the row. The random
`generate_key()` and the sqlite rowid are both drawn from `nextRowId`. -/
def create_collection (db : DB) (name : String) (parentKey : Option String) :
    Except Err (String × DB) :=
  match parentKey with
  | some pk =>
    match findCollID db pk with
    | Option.none => .error (.notFound ("Parent collection not found: " ++ pk))
    | some pid =>
      .ok (genKey db.nextRowId,
        { db with
          colls := db.colls ++ [⟨db.nextRowId, name, some pid, genKey db.nextRowId⟩]
          nextRowId := db.nextRowId + 1 })
  | Option.none =>
    .ok (genKey db.nextRowId,
      { db with
        colls := db.colls ++ [⟨db.nextRowId, name, Option.none, genKey db.nextRowId⟩]
        nextRowId := db.nextRowId + 1 })

/-- The recursive `get_path` of `list_collections` (local_sqlite.py
lines 186-200), with fuel bounding the parent walk (the source would
not terminate on a cyclic parent chain either). -/
def getPath (colls : List Coll) : Nat → Coll → String
  | 0, c => c.name
  | fuel + 1, c =>
    match c.parent with
    | Option.none => c.name
    | some pid =>
      match colls.find? (fun p => p.collectionID == pid) with
      | Option.none => c.name
      | some pc =>
        let pp := getPath colls fuel pc
        if pp = "" then c.name else pp ++ "/" ++ c.name

/-- `list_collections` (local_sqlite.py lines 165-205): live collection
rows ordered by name, each with its computed path; returned as
`(key, path)` pairs in dict iteration order. -/
def list_collections (db : DB) : List (String × String) :=
  let live := db.colls.filter (fun c => ¬ db.deletedCollections.any (fun d => d == c.collectionID))
  let sorted := live.mergeSort (fun a b => a.name ≤ b.name)
  sorted.map (fun c => (c.key, getPath live live.length c))

/-! ## BatchApplier (`apply_suggestions.py`, `apply_reorganization.py`) -/

/-- A validated categorization entry as the application loop reads it
(`item_key`, `collection_path`, `item.get(\x27tags\x27, [])`). -/
structure SuggItem where
  item_key : String
  collection_path : String
  tags : List String
deriving DecidableEq, Repr

/-- The outcome of one `with backend.connect(read_only=False)` session:
`__exit__` (local_sqlite.py lines 76-83) commits on clean exit and rolls
back to the state at connect time on an exception; `noop` is the early
return before any session opens. -/
inductive SessionOutcome where
  | noop
  | committed (db : DB)
  | rolledBack (db : DB) (e : Err)
deriving DecidableEq, Repr

/-- The inline hierarchy loop of `apply_suggestions` (lines 121-133):
one `collection_keys` dict seeded from the snapshot and shared by all
entries of the batch; creations are appended to it. -/
def suggWalk : List String → List String → Option String →
    List (String × String) → DB → Except Err (List (String × String) × DB)
  | _, [], _, keys, db => .ok (keys, db)
  | done, part :: rest, parentKey, keys, db =>
    let pathSoFar := String.intercalate "/" (done ++ [part])
    match dictLookup keys pathSoFar with
    | some k => suggWalk (done ++ [part]) rest (some k) keys db
    | Option.none =>
      match create_collection db part parentKey with
      | .error e => .error e
      | .ok (k, db') => suggWalk (done ++ [part]) rest (some k) (keys ++ [(pathSoFar, k)]) db'

/-- One iteration of the `for item in suggestions[\x27items\x27]` loop
(apply_suggestions.py lines 108-141): resolve the path, look up the
final key, link, then tag. Any raised error propagates. -/
def applyOneSuggestion (keys : List (String × String)) (db : DB) (it : SuggItem) :
    Except Err (List (String × String) × DB) :=
  match suggWalk [] (pySplitSlash it.collection_path) Option.none keys db with
  | .error e => .error e
  | .ok (keys1, db1) =>
    match dictLookup keys1 it.collection_path with
    | Option.none => .error .keyError
    | some finalKey =>
      match add_to_collection db1 it.item_key finalKey with
      | .error e => .error e
      | .ok db2 =>
        if it.tags.isEmpty then .ok (keys1, db2)
        else
          match add_tags db2 it.item_key it.tags with
          | .error e => .error e
          | .ok db3 => .ok (keys1, db3)

/-- The entry loop of `apply_suggestions`: entries processed in order,
with NO per-entry exception handler. -/
def suggLoop (keys : List (String × String)) (db : DB) :
    List SuggItem → Except Err (List (String × String) × DB)
  | [] => .ok (keys, db)
  | it :: rest =>
    match applyOneSuggestion keys db it with
    | .error e => .error e
    | .ok (keys1, db1) => suggLoop keys1 db1 rest

/-- `apply_suggestions` after validation (lines 98-143): one write
session for the whole batch; commit on clean exit, rollback to the
connect-time state on any raised error. -/
def apply_suggestions_run (db0 : DB) (items : List SuggItem) : SessionOutcome :=
  let keys0 := pathIndexOf (list_collections db0)
  match suggLoop keys0 db0 items with
  | .ok (_, dbF) => .committed dbF
  | .error e => .rolledBack db0 e

/-- A validated reorganization move as the application loop reads it. -/
structure Move where
  item_key : String
  current_path : String
  new_path : String
deriving DecidableEq, Repr

/-- The inline hierarchy loop of `apply_reorganization` (lines 137-158):
a pre-existing snapshot node wins over the `new_collection_keys` cache
at every level; otherwise the collection is created. -/
def reorgWalk (snap : List (String × String)) : List String → List String →
    Option String → DB → List (String × String) →
    Except Err (DB × List (String × String))
  | _, [], _, db, nk => .ok (db, nk)
  | done, part :: rest, parentKey, db, nk =>
    let pathSoFar := String.intercalate "/" (done ++ [part])
    match firstKeyWithPath snap pathSoFar with
    | some k => reorgWalk snap (done ++ [part]) rest (some k) db nk
    | Option.none =>
      match dictLookup nk pathSoFar with
      | some k => reorgWalk snap (done ++ [part]) rest (some k) db nk
      | Option.none =>
        match create_collection db part parentKey with
        | .error e => .error e
        | .ok (k, db') =>
          reorgWalk snap (done ++ [part]) rest (some k) db' (nk ++ [(pathSoFar, k)])

/-- One iteration of the `for move in moves` loop
(apply_reorganization.py lines 113-177): an unresolvable `current_path`
or final key is skipped with `continue`; errors raised by the backend
mutations propagate. The item is added to the destination BEFORE being
removed from the current collection (lines 173-177). -/
def applyMove (snap : List (String × String)) (db : DB)
    (nk : List (String × String)) (mv : Move) :
    Except Err (DB × List (String × String)) :=
  match firstKeyWithPath snap mv.current_path with
  | Option.none => .ok (db, nk)
  | some currentKey =>
    match reorgWalk snap [] (pySplitSlash mv.new_path) Option.none db nk with
    | .error e => .error e
    | .ok (db1, nk1) =>
      match reorgResolveLevel snap nk1 mv.new_path with
      | Option.none => .ok (db1, nk1)
      | some finalKey =>
        match add_to_collection db1 mv.item_key finalKey with
        | .error e => .error e
        | .ok db2 =>
          match remove_from_collection db2 mv.item_key currentKey with
          | .error e => .error e
          | .ok db3 => .ok (db3, nk1)

/-- The move loop of `apply_reorganization`. -/
def movesLoop (snap : List (String × String)) (db : DB)
    (nk : List (String × String)) : List Move →
    Except Err (DB × List (String × String))
  | [] => .ok (db, nk)
  | mv :: rest =>
    match applyMove snap db nk mv with
    | .error e => .error e
    | .ok (db1, nk1) => movesLoop snap db1 nk1 rest

/-- `apply_reorganization` after validation (lines 94-179): early return
on an empty move list, otherwise one write session; commit on clean
exit, rollback to the connect-time state on any raised error. -/
def apply_reorganization_run (db0 : DB) (moves : List Move) : SessionOutcome :=
  if moves.isEmpty then .noop
  else
    match movesLoop (list_collections db0) db0 [] moves with
    | .ok (dbF, _) => .committed dbF
    | .error e => .rolledBack db0 e

/-! ## Session effects (`LocalSQLiteBackend.connect` / `__exit__`)

The file-system and connection side effects of a session, in program
order.  `deleteBackup` is an effect the environment could perform; the
code never emits it. -/

/-- Observable side effects of a backend session. -/
inductive Eff where
  | lockProbe
  | backupCreate
  | openConn (readOnly : Bool)
  | stmt
  | commitTx
  | rollbackTx
  | closeConn
  | deleteBackup
deriving DecidableEq, Repr

/-- `connect` (local_sqlite.py lines 50-71): read-only connects
directly; read-write first probes the exclusive lock
(`check_zotero_running`, lines 28-37), raising `resourceBusy` when the
probe fails, then `create_backup` (lines 39-48), then opens the write
connection. Returns the effects performed and the error, if raised. -/
def connect_effects (zoteroRunning readOnly : Bool) : List Eff × Option Err :=
  if readOnly then ([Eff.openConn true], Option.none)
  else if zoteroRunning then ([Eff.lockProbe], some Err.resourceBusy)
  else ([Eff.lockProbe, Eff.backupCreate, Eff.openConn false], Option.none)

/-- The full effect trace of a successful read-write session open that
executes `k` statements in its body: `connect(read_only=False)`, the
body, then `__exit__` (commit on clean exit, rollback when the body
raised), then close. -/
def rw_session_trace (k : Nat) (bodyFails : Bool) : List Eff :=
  (connect_effects false false).1 ++ List.replicate k Eff.stmt ++
    [if bodyFails then Eff.rollbackTx else Eff.commitTx, Eff.closeConn]

/-! ## Claim theorems -/

/-- C10: `validate_collection_path` inspects only the raw slash count
and overall non-whitespace of the string: a string passes exactly when
its trim is nonempty and it contains at most 2 slashes; `"/"` and
`"A//B"` are accepted, `"A/B/C/"` is rejected with the depth error. -/
theorem path_validation_characterization :
    (∀ s field lbl, validate_collection_path (PyVal.str s) field lbl = Option.none ↔
      (pyStrip s ≠ "" ∧ countSlash s ≤ 2)) ∧
    validate_collection_path (PyVal.str "/") "collection_path" "Item 0" = Option.none ∧
    validate_collection_path (PyVal.str "A//B") "collection_path" "Item 0" = Option.none ∧
    validate_collection_path (PyVal.str "A/B/C/") "collection_path" "Item 0" =
      some "Item 0: \x27collection_path\x27 exceeds max 3 levels (got: A/B/C/)" := by
  refine ⟨?_, by decide, by decide, by decide⟩
  intro s field lbl
  unfold validate_collection_path MAX_COLLECTION_DEPTH
  by_cases h1 : pyStrip s = ""
  · simp [h1]
  · by_cases h2 : countSlash s > 3 - 1
    · simp only [h1, if_neg h1, if_pos h2]
      constructor
      · intro hc; exact Option.noConfusion hc
      · intro hc; omega
    · simp only [h1, if_neg h1, if_neg h2]
      constructor
      · intro _; exact ⟨h1, by omega⟩
      · intro _; rfl

/-- C2: opening a read-write session while Zotero holds the database
performs only the lock probe and fails with `resourceBusy`: no backup is
created, no connection (read-only or write) is opened, and no statement
runs. -/
theorem busy_open_fails_cleanly :
    connect_effects true false = ([Eff.lockProbe], some Err.resourceBusy) ∧
    (connect_effects true false).1.any (fun e => e == Eff.backupCreate) = false ∧
    (connect_effects true false).1.any (fun e => e == Eff.openConn false) = false ∧
    (connect_effects true false).1.any (fun e => e == Eff.openConn true) = false ∧
    (connect_effects true false).1.any (fun e => e == Eff.stmt) = false := by
  exact ⟨rfl, rfl, rfl, rfl, rfl⟩

theorem any_replicate_false (k : Nat) (a : Eff) (p : Eff → Bool) (h : p a = false) :
    (List.replicate k a).any p = false := by
  induction k with
  | zero => rfl
  | succ n ih => simp [List.replicate_succ, ih, h]

/-- C1: in every successful read-write session, the backup is created
before the write connection is even opened (the only effects up to and
including the backup are the lock probe and the backup itself), the
write connection does open, no statement precedes the backup, and the
backup is never deleted, whether the session commits or rolls back. -/
theorem backup_before_write (k : Nat) (fails : Bool) :
    (rw_session_trace k fails).take
        ((rw_session_trace k fails).indexOf Eff.backupCreate + 1) =
      [Eff.lockProbe, Eff.backupCreate] ∧
    (rw_session_trace k fails).any (fun e => e == Eff.openConn false) = true ∧
    ((rw_session_trace k fails).take
        ((rw_session_trace k fails).indexOf Eff.backupCreate + 1)).any
        (fun e => e == Eff.stmt) = false ∧
    (rw_session_trace k fails).any (fun e => e == Eff.deleteBackup) = false := by
  refine ⟨rfl, rfl, rfl, ?_⟩
  unfold rw_session_trace connect_effects
  simp only [if_neg (by decide : ¬ (false : Bool) = true)]
  rw [List.any_append, List.any_append]
  rw [any_replicate_false k Eff.stmt _ (by decide)]
  cases fails <;> decide

/-- Unfolding of `add_to_collection` once both keys resolve. -/
theorem add_to_collection_eq (db : DB) (itemKey collKey : String)
    (itemID collID : Nat)
    (hi : findItemID db itemKey = some itemID)
    (hc : findCollID db collKey = some collID) :
    add_to_collection db itemKey collKey =
      if linkExists db collID itemID then .ok db
      else .ok { db with links := db.links ++ [(collID, itemID, nextOrderIndex db collID)] } := by
  unfold add_to_collection
  rw [hi, hc]

/-- Unfolding of `remove_from_collection` once both keys resolve. -/
theorem remove_from_collection_eq (db : DB) (itemKey collKey : String)
    (itemID collID : Nat)
    (hi : findItemID db itemKey = some itemID)
    (hc : findCollID db collKey = some collID) :
    remove_from_collection db itemKey collKey =
      .ok { db with links := db.links.filter (fun l => ¬(l.2.1 == itemID && l.1 == collID)) } := by
  unfold remove_from_collection
  rw [hi, hc]

/-- C4 counterexample: resolving path `"A"` with a snapshot mapping
`"A"` to key `"K1"` and a session cache mapping `"A"` to `"K2"`,
`build_collection_hierarchy` returns the CACHE key `"K2"`, not the
snapshot key `"K1"` — `collection_keys.update(new_collection_cache)`
makes the cache win, contradicting snapshot-wins as claimed. -/
theorem cache_overrides_snapshot_cex :
    (build_collection_hierarchy [("K1", "A")] "A" ⟨[("A", "K2")], [], 0⟩).1 = some "K2" ∧
    (("K2" : String) == "K1") = false := by
  exact ⟨rfl, rfl⟩

/-- C4 (amended): the resolve order is per-implementation. In the
inline resolver of `apply_reorganization` a snapshot hit wins over the
cache at every level; in `utils.build_collection_hierarchy` the merged
dict gives the CACHE priority whenever both contain the path. -/
theorem resolve_order_by_component :
    (∀ snap newKeys p k, firstKeyWithPath snap p = some k →
        reorgResolveLevel snap newKeys p = some k) ∧
    (∀ snap cache p k, dictLookup cache p = some k →
        mergedLookup snap cache p = some k) := by
  constructor
  · intro snap nk p k h
    unfold reorgResolveLevel
    rw [h]
  · intro snap c p k h
    unfold mergedLookup
    rw [h]

/-- C4 witness: concrete resolutions with both snapshot and cache
populated at the same path. -/
theorem resolve_order_by_component_w :
    reorgResolveLevel [("K1", "A")] [("A", "K2")] "A" = some "K1" ∧
    mergedLookup [("K1", "A")] [("A", "K2")] "A" = some "K2" :=
  ⟨resolve_order_by_component.1 [("K1", "A")] [("A", "K2")] "A" "K1" rfl,
   resolve_order_by_component.2 [("K1", "A")] [("A", "K2")] "A" "K2" rfl⟩

/-- Concrete database for the C5 counterexample: three items, one
collection, no links yet. -/
def c5db : DB :=
  { items := [(1, "AAAAAAA1"), (2, "AAAAAAA2"), (3, "AAAAAAA3")]
    colls := [⟨10, "C", Option.none, "CCCCCCC1"⟩]
    links := []
    tags := []
    itemTags := []
    deletedCollections := []
    nextRowId := 100 }

/-- C5 counterexample: link item 1 (position 0), link item 2
(position 1), unlink item 2, link item 3 — item 3 receives position 1,
the very position item 2 held before its removal. Positions ARE reused
after `unlinkItem` removes the maximal link. -/
theorem order_position_reuse_cex :
    (add_to_collection c5db "AAAAAAA1" "CCCCCCC1").bind (fun d1 =>
      add_to_collection d1 "AAAAAAA2" "CCCCCCC1") =
      .ok { c5db with links := [(10, 1, 0), (10, 2, 1)] } ∧
    (add_to_collection c5db "AAAAAAA1" "CCCCCCC1").bind (fun d1 =>
      (add_to_collection d1 "AAAAAAA2" "CCCCCCC1").bind (fun d2 =>
        (remove_from_collection d2 "AAAAAAA2" "CCCCCCC1").bind (fun d3 =>
          add_to_collection d3 "AAAAAAA3" "CCCCCCC1"))) =
      .ok { c5db with links := [(10, 1, 0), (10, 3, 1)] } := by
  exact ⟨by decide, by decide⟩

/-- C5 (amended): the order position assigned on insert is
`max(existing positions for the node) + 1`, or `0` when the node has no
links, and strictly exceeds every position present at insert time — so
positions are strictly increasing over successive inserts; a removed
position can however be reassigned once no greater-or-equal position
remains (see the counterexample). -/
theorem order_position_assignment (db : DB) (itemKey collKey : String)
    (itemID collID : Nat)
    (hi : findItemID db itemKey = some itemID)
    (hc : findCollID db collKey = some collID)
    (hnl : linkExists db collID itemID = false) :
    add_to_collection db itemKey collKey =
      .ok { db with links := db.links ++ [(collID, itemID, nextOrderIndex db collID)] } ∧
    nextOrderIndex db collID =
      (match sqlMax (collOrderIndices db collID) with
       | Option.none => 0
       | some m => m + 1) ∧
    ∀ v ∈ collOrderIndices db collID, v < nextOrderIndex db collID := by
  refine ⟨?_, ?_, ?_⟩
  · rw [add_to_collection_eq db itemKey collKey itemID collID hi hc, hnl]
    simp
  · unfold nextOrderIndex
    cases h : sqlMax (collOrderIndices db collID) <;> simp [h]
  · intro v hv
    unfold nextOrderIndex
    cases h : sqlMax (collOrderIndices db collID) with
    | none =>
      rw [sqlMax_eq_none _ h] at hv
      cases hv
    | some m =>
      have := sqlMax_is_ub _ _ h v hv
      simp only [Option.getD_some]
      omega

/-- C5 witness: the assignment rule at a concrete state with one
existing link at position 4. -/
theorem order_position_assignment_w :
    add_to_collection
        { c5db with links := [(10, 2, 4)] } "AAAAAAA1" "CCCCCCC1" =
      .ok { c5db with links := [(10, 2, 4), (10, 1, 5)] } := by
  have h := order_position_assignment { c5db with links := [(10, 2, 4)] }
    "AAAAAAA1" "CCCCCCC1" 1 10 (by decide) (by decide) (by decide)
  rw [h.1]
  decide

/-- C7: `linkItem` is idempotent. From any state in which both keys
resolve and the pair has at most one link row (the table's primary key
guarantees this), one call leaves exactly one link row for the pair and
a second call returns the same state with no error. -/
theorem link_item_idempotent (db : DB) (itemKey collKey : String)
    (itemID collID : Nat)
    (hi : findItemID db itemKey = some itemID)
    (hc : findCollID db collKey = some collID)
    (hone : (db.links.filter (fun l => l.1 == collID && l.2.1 == itemID)).length ≤ 1) :
    ∃ db1, add_to_collection db itemKey collKey = .ok db1 ∧
      (db1.links.filter (fun l => l.1 == collID && l.2.1 == itemID)).length = 1 ∧
      add_to_collection db1 itemKey collKey = .ok db1 := by
  cases hle : linkExists db collID itemID with
  | true =>
    refine ⟨db, ?_, ?_, ?_⟩
    · rw [add_to_collection_eq db itemKey collKey itemID collID hi hc, hle]
      simp
    · have hex : ∃ l ∈ db.links, (l.1 == collID && l.2.1 == itemID) = true := by
        have := hle
        unfold linkExists at this
        exact List.any_eq_true.mp this
      rcases hex with ⟨l, hl, hpl⟩
      have hmem : l ∈ db.links.filter (fun l => l.1 == collID && l.2.1 == itemID) :=
        List.mem_filter.mpr ⟨hl, hpl⟩
      have hpos : 0 < (db.links.filter (fun l => l.1 == collID && l.2.1 == itemID)).length :=
        List.length_pos.mpr (List.ne_nil_of_mem hmem)
      omega
    · rw [add_to_collection_eq db itemKey collKey itemID collID hi hc, hle]
      simp
  | false =>
    refine ⟨{ db with links := db.links ++ [(collID, itemID, nextOrderIndex db collID)] },
      ?_, ?_, ?_⟩
    · rw [add_to_collection_eq db itemKey collKey itemID collID hi hc, hle]
      simp
    · have hemp : db.links.filter (fun l => l.1 == collID && l.2.1 == itemID) = [] := by
        rw [List.filter_eq_nil_iff]
        intro l hl
        have hfa := hle
        unfold linkExists at hfa
        have := List.any_eq_false.mp hfa l hl
        simpa using this
      simp [List.filter_append, hemp]
    · have hi1 : findItemID { db with links := db.links ++ [(collID, itemID, nextOrderIndex db collID)] } itemKey = some itemID := hi
      have hc1 : findCollID { db with links := db.links ++ [(collID, itemID, nextOrderIndex db collID)] } collKey = some collID := hc
      have hle1 : linkExists { db with links := db.links ++ [(collID, itemID, nextOrderIndex db collID)] } collID itemID = true := by
        unfold linkExists
        rw [List.any_eq_true]
        exact ⟨(collID, itemID, nextOrderIndex db collID), by simp, by simp⟩
      rw [add_to_collection_eq _ itemKey collKey itemID collID hi1 hc1, hle1]
      simp

/-- C7 witness: linking twice at a concrete state. -/
theorem link_item_idempotent_w :
    ∃ db1, add_to_collection c5db "AAAAAAA1" "CCCCCCC1" = .ok db1 ∧
      (db1.links.filter (fun l => l.1 == 10 && l.2.1 == 1)).length = 1 ∧
      add_to_collection db1 "AAAAAAA1" "CCCCCCC1" = .ok db1 :=
  link_item_idempotent c5db "AAAAAAA1" "CCCCCCC1" 1 10 (by decide) (by decide) (by decide)

/-- Every message of `validate_item_key` starts with its label. -/
theorem validate_item_key_msg (v : PyVal) (lbl : String) :
    ∀ m ∈ (validate_item_key v lbl).toList, ∃ t, m = lbl ++ t := by
  intro m hm
  cases v with
  | str s =>
    simp only [validate_item_key] at hm
    split at hm
    · simp at hm
    · simp only [Option.toList_some, List.mem_singleton] at hm
      refine ⟨": \x27item_key\x27 must be 8 uppercase alphanumeric characters (got: " ++ (s ++ ")"), ?_⟩
      rw [hm]
      simp only [String.append_assoc]
  | int n => simp only [validate_item_key, Option.toList_some, List.mem_singleton] at hm; exact ⟨_, hm⟩
  | bool b => simp only [validate_item_key, Option.toList_some, List.mem_singleton] at hm; exact ⟨_, hm⟩
  | list xs => simp only [validate_item_key, Option.toList_some, List.mem_singleton] at hm; exact ⟨_, hm⟩
  | dict f => simp only [validate_item_key, Option.toList_some, List.mem_singleton] at hm; exact ⟨_, hm⟩
  | null => simp only [validate_item_key, Option.toList_some, List.mem_singleton] at hm; exact ⟨_, hm⟩

/-- Every message of `validate_collection_path` starts with its label. -/
theorem validate_collection_path_msg (v : PyVal) (field lbl : String) :
    ∀ m ∈ (validate_collection_path v field lbl).toList, ∃ t, m = lbl ++ t := by
  intro m hm
  cases v with
  | str s =>
    simp only [validate_collection_path] at hm
    split at hm
    · simp only [Option.toList_some, List.mem_singleton] at hm
      refine ⟨": \x27" ++ (field ++ "\x27 cannot be empty"), ?_⟩
      rw [hm]
      simp only [String.append_assoc]
    · split at hm
      · simp only [Option.toList_some, List.mem_singleton] at hm
        refine ⟨": \x27" ++ (field ++ ("\x27 exceeds max 3 levels (got: " ++ (s ++ ")"))), ?_⟩
        rw [hm]
        simp only [String.append_assoc]
      · simp at hm
  | int n => simp only [validate_collection_path, Option.toList_some, List.mem_singleton] at hm
             exact ⟨": \x27" ++ (field ++ "\x27 must be a string"), by rw [hm]; simp only [String.append_assoc]⟩
  | bool b => simp only [validate_collection_path, Option.toList_some, List.mem_singleton] at hm
              exact ⟨": \x27" ++ (field ++ "\x27 must be a string"), by rw [hm]; simp only [String.append_assoc]⟩
  | list xs => simp only [validate_collection_path, Option.toList_some, List.mem_singleton] at hm
               exact ⟨": \x27" ++ (field ++ "\x27 must be a string"), by rw [hm]; simp only [String.append_assoc]⟩
  | dict f => simp only [validate_collection_path, Option.toList_some, List.mem_singleton] at hm
              exact ⟨": \x27" ++ (field ++ "\x27 must be a string"), by rw [hm]; simp only [String.append_assoc]⟩
  | null => simp only [validate_collection_path, Option.toList_some, List.mem_singleton] at hm
            exact ⟨": \x27" ++ (field ++ "\x27 must be a string"), by rw [hm]; simp only [String.append_assoc]⟩

/-- Every message of `validate_tags` starts with its label. -/
theorem validate_tags_msg (v : PyVal) (lbl : String) :
    ∀ m ∈ (validate_tags v lbl).toList, ∃ t, m = lbl ++ t := by
  intro m hm
  cases v with
  | list ts =>
    simp only [validate_tags] at hm
    split at hm
    · simp only [Option.toList_some, List.mem_singleton] at hm
      exact ⟨_, hm⟩
    · split at hm
      · simp only [Option.toList_some, List.mem_singleton] at hm
        refine ⟨": too many tags (max 5, got " ++ (toString ts.length ++ ")"), ?_⟩
        rw [hm]
        simp only [String.append_assoc]
      · simp at hm
  | str s => simp only [validate_tags, Option.toList_some, List.mem_singleton] at hm; exact ⟨_, hm⟩
  | int n => simp only [validate_tags, Option.toList_some, List.mem_singleton] at hm; exact ⟨_, hm⟩
  | bool b => simp only [validate_tags, Option.toList_some, List.mem_singleton] at hm; exact ⟨_, hm⟩
  | dict f => simp only [validate_tags, Option.toList_some, List.mem_singleton] at hm; exact ⟨_, hm⟩
  | null => simp only [validate_tags, Option.toList_some, List.mem_singleton] at hm; exact ⟨_, hm⟩

/-- Every message one entry contributes is prefixed by that entry's
index label. -/
theorem entry_errors_prefixed (i : Nat) (item : PyVal) :
    ∀ m ∈ entry_errors i item, ∃ t, m = "Item " ++ toString i ++ t := by
  intro m hm
  cases item with
  | dict f =>
    simp only [entry_errors, List.mem_append] at hm
    rcases hm with ((((hm | hm) | hm) | hm) | hm)
    · cases hk : pyGet f "item_key" with
      | none =>
        rw [hk] at hm
        simp only [List.mem_singleton] at hm
        exact ⟨_, hm⟩
      | some v =>
        rw [hk] at hm
        exact validate_item_key_msg v _ m hm
    · cases hk : pyGet f "collection_path" with
      | none =>
        rw [hk] at hm
        simp only [List.mem_singleton] at hm
        exact ⟨_, hm⟩
      | some v =>
        rw [hk] at hm
        exact validate_collection_path_msg v _ _ m hm
    · cases hk : pyGet f "tags" with
      | none => rw [hk] at hm; cases hm
      | some v =>
        rw [hk] at hm
        exact validate_tags_msg v _ m hm
    · cases hk : pyGet f "title" with
      | none => rw [hk] at hm; cases hm
      | some v =>
        rw [hk] at hm
        cases v with
        | str s => simp [PyVal.isStr] at hm
        | int n => simp only [PyVal.isStr, Bool.false_eq_true, if_false, List.mem_singleton] at hm; exact ⟨_, hm⟩
        | bool b => simp only [PyVal.isStr, Bool.false_eq_true, if_false, List.mem_singleton] at hm; exact ⟨_, hm⟩
        | list xs => simp only [PyVal.isStr, Bool.false_eq_true, if_false, List.mem_singleton] at hm; exact ⟨_, hm⟩
        | dict g => simp only [PyVal.isStr, Bool.false_eq_true, if_false, List.mem_singleton] at hm; exact ⟨_, hm⟩
        | null => simp only [PyVal.isStr, Bool.false_eq_true, if_false, List.mem_singleton] at hm; exact ⟨_, hm⟩
    · cases hk : pyGet f "reasoning" with
      | none => rw [hk] at hm; cases hm
      | some v =>
        rw [hk] at hm
        cases v with
        | str s => simp [PyVal.isStr] at hm
        | int n => simp only [PyVal.isStr, Bool.false_eq_true, if_false, List.mem_singleton] at hm; exact ⟨_, hm⟩
        | bool b => simp only [PyVal.isStr, Bool.false_eq_true, if_false, List.mem_singleton] at hm; exact ⟨_, hm⟩
        | list xs => simp only [PyVal.isStr, Bool.false_eq_true, if_false, List.mem_singleton] at hm; exact ⟨_, hm⟩
        | dict g => simp only [PyVal.isStr, Bool.false_eq_true, if_false, List.mem_singleton] at hm; exact ⟨_, hm⟩
        | null => simp only [PyVal.isStr, Bool.false_eq_true, if_false, List.mem_singleton] at hm; exact ⟨_, hm⟩
  | str s => simp only [entry_errors, List.mem_singleton] at hm; exact ⟨_, hm⟩
  | int n => simp only [entry_errors, List.mem_singleton] at hm; exact ⟨_, hm⟩
  | bool b => simp only [entry_errors, List.mem_singleton] at hm; exact ⟨_, hm⟩
  | list xs => simp only [entry_errors, List.mem_singleton] at hm; exact ⟨_, hm⟩
  | null => simp only [entry_errors, List.mem_singleton] at hm; exact ⟨_, hm⟩

/-- C8: validation is exhaustive. The entry loop distributes over
concatenation (later entries are validated no matter how many earlier
ones fail), nonempty descriptors are validated entry by entry, every
message is prefixed by its entry index, and the spec's two examples — a
4-segment `collection_path` and a lowercase `item_key` — each yield
exactly one error; a descriptor holding both yields exactly those two,
index-prefixed. -/
theorem validation_exhaustive :
    (∀ (i : Nat) (l1 l2 : List PyVal),
      validate_items_loop i (l1 ++ l2) =
        validate_items_loop i l1 ++ validate_items_loop (i + l1.length) l2) ∧
    (∀ (f : List (String × PyVal)) (items : List PyVal),
      pyGet f "items" = some (.list items) → items ≠ [] →
      validate_suggestions (.dict f) = validate_items_loop 0 items) ∧
    (∀ (i : Nat) (item : PyVal) (m : String), m ∈ entry_errors i item →
      ∃ t, m = "Item " ++ toString i ++ t) ∧
    entry_errors 0 (.dict [("item_key", .str "ABCD1234"), ("collection_path", .str "A/B/C/D")]) =
      ["Item 0: \x27collection_path\x27 exceeds max 3 levels (got: A/B/C/D)"] ∧
    entry_errors 0 (.dict [("item_key", .str "abcd1234"), ("collection_path", .str "A/B")]) =
      ["Item 0: \x27item_key\x27 must be 8 uppercase alphanumeric characters (got: abcd1234)"] ∧
    validate_suggestions (.dict [("items", .list
      [.dict [("item_key", .str "ABCD1234"), ("collection_path", .str "A/B/C/D")],
       .dict [("item_key", .str "abcd1234"), ("collection_path", .str "A/B")]])]) =
      ["Item 0: \x27collection_path\x27 exceeds max 3 levels (got: A/B/C/D)",
       "Item 1: \x27item_key\x27 must be 8 uppercase alphanumeric characters (got: abcd1234)"] := by
  refine ⟨?_, ?_, entry_errors_prefixed, by decide, by decide, by decide⟩
  · intro i l1 l2
    induction l1 generalizing i with
    | nil => simp [validate_items_loop]
    | cons x l1 ih =>
      simp only [List.cons_append, validate_items_loop, List.length_cons,
        List.append_assoc, List.append_eq]
      rw [ih (i + 1)]
      have h : i + 1 + l1.length = i + (l1.length + 1) := by omega
      rw [h]
  · intro f items hk hne
    simp only [validate_suggestions]
    rw [hk]
    simp [List.length_eq_zero, hne]

/-- C8 witness: the loop-decomposition at a concrete split whose first
entry is invalid and whose second is still validated, and a nonempty
descriptor validated entry by entry. -/
theorem validation_exhaustive_w :
    validate_items_loop 0
        ([PyVal.dict [("item_key", .str "abcd1234"), ("collection_path", .str "A/B")]] ++
         [PyVal.dict [("item_key", .str "ABCD1234")]]) =
      validate_items_loop 0
        [PyVal.dict [("item_key", .str "abcd1234"), ("collection_path", .str "A/B")]] ++
      validate_items_loop 1 [PyVal.dict [("item_key", .str "ABCD1234")]] ∧
    pyGet [("items", PyVal.list [PyVal.dict []])] "items" = some (.list [PyVal.dict []]) ∧
    ([PyVal.dict []] : List PyVal) ≠ [] ∧
    validate_suggestions (.dict [("items", .list [PyVal.dict []])]) =
      validate_items_loop 0 [PyVal.dict []] := by
  refine ⟨?_, ?_, ?_, ?_⟩
  · have h := validation_exhaustive.1 0
      [PyVal.dict [("item_key", .str "abcd1234"), ("collection_path", .str "A/B")]]
      [PyVal.dict [("item_key", .str "ABCD1234")]]
    simpa using h
  · rfl
  · simp
  · exact validation_exhaustive.2.1 [("items", .list [PyVal.dict []])] [PyVal.dict []]
      rfl (by simp)

/-- C6: soundness of in-session hierarchical resolution. Resolving any
two segment lists sharing the nonempty prefix `pre` within one session
(empty cache at session start): the combined creation log has no
duplicate path (each missing ancestor is created exactly once), no
created path was already a snapshot path, every created node's parent is
a snapshot key or an earlier-created key (parents strictly before
children), the shared prefix resolves to the SAME key after either
resolution, and re-walking the first path is the identity (resolving
the same path twice creates nothing and returns the same key). -/
theorem hierarchy_resolution_sound (snap : List (String × String))
    (pre r1 r2 : List String) (st1 st2 : BState)
    (hpre : pre ≠ [])
    (h1 : st1 = hierWalk snap [] (pre ++ r1) Option.none ⟨[], [], 0⟩)
    (h2 : st2 = hierWalk snap [] (pre ++ r2) Option.none st1) :
    (logPaths st2.log).Nodup ∧
    (∀ e ∈ st2.log, dictLookup (pathIndexOf snap) e.path = Option.none) ∧
    wellParented snap st2.log [] = true ∧
    (∃ k, mergedLookup snap st1.cache (String.intercalate "/" pre) = some k ∧
          mergedLookup snap st2.cache (String.intercalate "/" pre) = some k) ∧
    hierWalk snap [] (pre ++ r1) Option.none st1 = st1 := by
  subst h1
  subst h2
  have hinv0 : InvB snap ⟨[], [], 0⟩ :=
    ⟨rfl, List.nodup_nil, fun e he => absurd he (by simp), rfl⟩
  have hp0 : parentArgOK snap ⟨[], [], 0⟩ Option.none := trivial
  have hinv1 := hierWalk_inv snap (pre ++ r1) [] Option.none ⟨[], [], 0⟩ hinv0 hp0
  have hp1 : parentArgOK snap
      (hierWalk snap [] (pre ++ r1) Option.none ⟨[], [], 0⟩) Option.none := trivial
  have hinv2 := hierWalk_inv snap (pre ++ r2) [] Option.none
      (hierWalk snap [] (pre ++ r1) Option.none ⟨[], [], 0⟩) hinv1 hp1
  refine ⟨hinv2.2.1, hinv2.2.2.1, hinv2.2.2.2, ?_, ?_⟩
  · have hcov := hierWalk_covers snap (pre ++ r1) [] Option.none ⟨[], [], 0⟩ pre.length
      (List.length_pos.mpr hpre) (by simp)
    rw [List.take_left] at hcov
    rw [List.nil_append] at hcov
    rcases Option.isSome_iff_exists.mp hcov with ⟨k, hk⟩
    exact ⟨k, hk, hierWalk_stable snap (pre ++ r2) [] Option.none _ _ _ hk⟩
  · apply hierWalk_id_of_covered
    intro j hj hj'
    have := hierWalk_covers snap (pre ++ r1) [] Option.none ⟨[], [], 0⟩ j hj hj'
    simpa using this

/-- C6 witness: resolving `A/B/C` then `A/B/D` against an empty
snapshot from an empty session state. -/
theorem hierarchy_resolution_sound_w :
    (["A", "B"] : List String) ≠ [] ∧
    ((logPaths (hierWalk [] [] (["A", "B"] ++ ["D"]) Option.none
        (hierWalk [] [] (["A", "B"] ++ ["C"]) Option.none ⟨[], [], 0⟩)).log).Nodup ∧
     (∀ e ∈ (hierWalk [] [] (["A", "B"] ++ ["D"]) Option.none
        (hierWalk [] [] (["A", "B"] ++ ["C"]) Option.none ⟨[], [], 0⟩)).log,
        dictLookup (pathIndexOf []) e.path = Option.none) ∧
     wellParented [] (hierWalk [] [] (["A", "B"] ++ ["D"]) Option.none
        (hierWalk [] [] (["A", "B"] ++ ["C"]) Option.none ⟨[], [], 0⟩)).log [] = true ∧
     (∃ k, mergedLookup [] (hierWalk [] [] (["A", "B"] ++ ["C"]) Option.none
            ⟨[], [], 0⟩).cache (String.intercalate "/" ["A", "B"]) = some k ∧
        mergedLookup [] (hierWalk [] [] (["A", "B"] ++ ["D"]) Option.none
            (hierWalk [] [] (["A", "B"] ++ ["C"]) Option.none ⟨[], [], 0⟩)).cache
          (String.intercalate "/" ["A", "B"]) = some k) ∧
     hierWalk [] [] (["A", "B"] ++ ["C"]) Option.none
        (hierWalk [] [] (["A", "B"] ++ ["C"]) Option.none ⟨[], [], 0⟩) =
       hierWalk [] [] (["A", "B"] ++ ["C"]) Option.none ⟨[], [], 0⟩) :=
  ⟨by decide,
   hierarchy_resolution_sound [] ["A", "B"] ["C"] ["D"] _ _ (by decide) rfl rfl⟩

/-- An error raised while applying one entry aborts the rest of the
batch: the loop result is that error, whatever entries follow. -/
theorem suggLoop_error_propagates :
    ∀ (pre : List SuggItem) (keys : List (String × String)) (db : DB)
      (keys1 : List (String × String)) (db1 : DB) (bad : SuggItem)
      (rest : List SuggItem) (e : Err),
      suggLoop keys db pre = .ok (keys1, db1) →
      applyOneSuggestion keys1 db1 bad = .error e →
      suggLoop keys db (pre ++ bad :: rest) = .error e := by
  intro pre
  induction pre with
  | nil =>
    intro keys db keys1 db1 bad rest e hok hbad
    have h : keys = keys1 ∧ db = db1 := by simpa [suggLoop] using hok
    obtain ⟨rfl, rfl⟩ := h
    simp only [List.nil_append, suggLoop, hbad]
  | cons it pre ih =>
    intro keys db keys1 db1 bad rest e hok hbad
    simp only [suggLoop] at hok ⊢
    cases ha : applyOneSuggestion keys db it with
    | error e' =>
      rw [ha] at hok
      exact Except.noConfusion hok
    | ok kd =>
      obtain ⟨k', d'⟩ := kd
      rw [ha] at hok
      exact ih k' d' keys1 db1 bad rest e hok hbad

/-- C3 (amended): per-entry failures are NOT caught during application.
In `apply_suggestions`, an error raised for one entry (e.g. a
`NotFoundError` for its item key) aborts the batch: entries after it are
never processed and the whole session rolls back, discarding the earlier
entries' mutations. The only per-entry condition that is skipped is
`apply_reorganization`'s unresolvable `current_path`, where the move
loop continues with the remaining moves unchanged. -/
theorem entry_failure_rollback_and_skip :
    (∀ (db0 : DB) (pre : List SuggItem) (bad : SuggItem) (rest : List SuggItem)
       (keys1 : List (String × String)) (db1 : DB) (e : Err),
       suggLoop (pathIndexOf (list_collections db0)) db0 pre = .ok (keys1, db1) →
       applyOneSuggestion keys1 db1 bad = .error e →
       apply_suggestions_run db0 (pre ++ bad :: rest) = .rolledBack db0 e) ∧
    (∀ (snap : List (String × String)) (db : DB) (nk : List (String × String))
       (mv : Move) (rest : List Move),
       firstKeyWithPath snap mv.current_path = Option.none →
       movesLoop snap db nk (mv :: rest) = movesLoop snap db nk rest) := by
  constructor
  · intro db0 pre bad rest keys1 db1 e hok hbad
    simp only [apply_suggestions_run]
    rw [suggLoop_error_propagates pre _ db0 keys1 db1 bad rest e hok hbad]
  · intro snap db nk mv rest hcur
    simp only [movesLoop, applyMove, hcur]

/-- Concrete database for the C3 counterexample and witness: one item,
no collections yet. -/
def c3db : DB :=
  { items := [(1, "AAAAAAA1")]
    colls := []
    links := []
    tags := []
    itemTags := []
    deletedCollections := []
    nextRowId := 100 }

/-- A valid entry for item `AAAAAAA1` into path `A`. -/
def c3good : SuggItem := ⟨"AAAAAAA1", "A", []⟩

/-- An entry whose item key matches no item. -/
def c3bad : SuggItem := ⟨"ZZZZZZZ9", "A", []⟩

/-- A second valid entry, after the bad one in the batch. -/
def c3good2 : SuggItem := ⟨"AAAAAAA1", "B", []⟩

/-- The state after applying `c3good` alone: collection `A` created and
the item linked into it. -/
def c3dbAfterGood : DB :=
  { items := [(1, "AAAAAAA1")]
    colls := [⟨100, "A", Option.none, "NEW100"⟩]
    links := [(100, 1, 0)]
    tags := []
    itemTags := []
    deletedCollections := []
    nextRowId := 101 }

/-- C3 counterexample: in the batch `[good, bad, good]` the second
entry's `NotFoundError` is NOT caught — the session rolls back to the
initial state (the first entry's link is discarded, the third entry is
never processed), while the same good entry alone commits. The claim's
skip-and-commit behaviour does not hold for mutation failures. -/
theorem entry_failure_aborts_batch_cex :
    apply_suggestions_run c3db [c3good, c3bad, c3good2] =
      .rolledBack c3db (.notFound "Item not found: ZZZZZZZ9") ∧
    apply_suggestions_run c3db [c3good] = .committed c3dbAfterGood ∧
    c3dbAfterGood.links = [(100, 1, 0)] ∧ c3db.links = [] := by
  have hsnap : list_collections c3db = [] := by
    simp [list_collections, c3db, List.mergeSort]
  refine ⟨?_, ?_, rfl, rfl⟩
  · simp only [apply_suggestions_run, hsnap]
    decide
  · simp only [apply_suggestions_run, hsnap]
    decide

/-- C3 witness: the rollback branch applied at the concrete batch, and
the reorganization skip branch applied at a move with an unresolvable
current path. -/
theorem entry_failure_rollback_and_skip_w :
    suggLoop (pathIndexOf (list_collections c3db)) c3db [c3good] =
      .ok ([("A", "NEW100")], c3dbAfterGood) ∧
    applyOneSuggestion [("A", "NEW100")] c3dbAfterGood c3bad =
      .error (.notFound "Item not found: ZZZZZZZ9") ∧
    apply_suggestions_run c3db ([c3good] ++ c3bad :: [c3good2]) =
      .rolledBack c3db (.notFound "Item not found: ZZZZZZZ9") ∧
    firstKeyWithPath [] (Move.mk "AAAAAAA1" "X" "Y").current_path = Option.none ∧
    movesLoop [] c3db [] [⟨"AAAAAAA1", "X", "Y"⟩] = movesLoop [] c3db [] [] := by
  have hsnap : list_collections c3db = [] := by
    simp [list_collections, c3db, List.mergeSort]
  have h1 : suggLoop (pathIndexOf (list_collections c3db)) c3db [c3good] =
      .ok ([("A", "NEW100")], c3dbAfterGood) := by
    rw [hsnap]
    decide
  have h2 : applyOneSuggestion [("A", "NEW100")] c3dbAfterGood c3bad =
      .error (.notFound "Item not found: ZZZZZZZ9") := by decide
  exact ⟨h1, h2,
    entry_failure_rollback_and_skip.1 c3db [c3good] c3bad [c3good2] _ _ _ h1 h2,
    rfl,
    entry_failure_rollback_and_skip.2 [] c3db [] ⟨"AAAAAAA1", "X", "Y"⟩ [] rfl⟩

/-- Concrete database for the C9 counterexample: one item linked into
one collection. -/
def c9db : DB :=
  { items := [(1, "AAAAAAA1")]
    colls := [⟨10, "Topic", Option.none, "CCCCCCC1"⟩]
    links := [(10, 1, 0)]
    tags := []
    itemTags := []
    deletedCollections := []
    nextRowId := 100 }

/-- The state after the degenerate move: the item is linked nowhere. -/
def c9dbAfter : DB :=
  { items := [(1, "AAAAAAA1")]
    colls := [⟨10, "Topic", Option.none, "CCCCCCC1"⟩]
    links := []
    tags := []
    itemTags := []
    deletedCollections := []
    nextRowId := 100 }

/-- C9 counterexample: an applied move whose `new_path` equals its
`current_path`. The add is a no-op (already linked) and the removal
then unlinks the item, so the session commits a state in which the item
has been removed from its current node and is not in the destination
node — the claimed invariant fails for this move. -/
theorem move_same_target_cex :
    apply_reorganization_run c9db [⟨"AAAAAAA1", "Topic", "Topic"⟩] =
      .committed c9dbAfter ∧
    linkExists c9dbAfter 10 1 = false := by
  have hsnap : list_collections c9db = [("CCCCCCC1", "Topic")] := by
    simp [list_collections, c9db, List.mergeSort, getPath]
  refine ⟨?_, rfl⟩
  simp only [apply_reorganization_run, hsnap]
  decide

/-- C9 (amended): for every applied move whose destination collection
differs from the current one, the item is linked to the destination
strictly BEFORE it is unlinked from the current collection: the move's
result is exactly `remove_from_collection` applied after
`add_to_collection`, and in the intermediate state the item is linked
to both collections (never to neither); the destination link survives
the removal. When the destination equals the current collection the
invariant fails (see the counterexample). -/
theorem move_add_before_remove (snap : List (String × String)) (db : DB)
    (nk nk1 : List (String × String)) (mv : Move)
    (currentKey finalKey : String) (db1 db2 db3 : DB)
    (itemID curID finID : Nat)
    (hcur : firstKeyWithPath snap mv.current_path = some currentKey)
    (hwalk : reorgWalk snap [] (pySplitSlash mv.new_path) Option.none db nk =
      .ok (db1, nk1))
    (hfin : reorgResolveLevel snap nk1 mv.new_path = some finalKey)
    (hadd : add_to_collection db1 mv.item_key finalKey = .ok db2)
    (hrem : remove_from_collection db2 mv.item_key currentKey = .ok db3)
    (hii : findItemID db1 mv.item_key = some itemID)
    (hci : findCollID db1 currentKey = some curID)
    (hfi : findCollID db1 finalKey = some finID)
    (hne : curID ≠ finID)
    (hlinked : linkExists db1 curID itemID = true) :
    applyMove snap db nk mv = .ok (db3, nk1) ∧
    linkExists db2 finID itemID = true ∧
    linkExists db2 curID itemID = true ∧
    linkExists db3 finID itemID = true := by
  have happly : applyMove snap db nk mv = .ok (db3, nk1) := by
    simp only [applyMove, hcur, hwalk, hfin, hadd, hrem]
  have hkeepNew : ∀ l : Nat × Nat × Int, (l.1 == finID && l.2.1 == itemID) = true →
      (l.2.1 == itemID && l.1 == curID) = false := by
    intro l hp
    have hf : l.1 = finID := by
      have := (Bool.and_eq_true _ _).mp hp
      exact beq_iff_eq.mp this.1
    have hcc : (l.1 == curID) = false := by
      rw [hf]
      exact beq_eq_false_iff_ne.mpr (Ne.symm hne)
    rw [hcc, Bool.and_false]
  rw [add_to_collection_eq db1 mv.item_key finalKey itemID finID hii hfi] at hadd
  cases hle : linkExists db1 finID itemID with
  | true =>
    rw [hle] at hadd
    simp only [if_true] at hadd
    have hdb : db1 = db2 := by simpa using hadd
    subst hdb
    have hrem2 := hrem
    rw [remove_from_collection_eq db1 mv.item_key currentKey itemID curID hii hci] at hrem2
    have hdb3 : { db1 with
        links := db1.links.filter (fun l => ¬(l.2.1 == itemID && l.1 == curID)) } = db3 := by
      simpa using hrem2
    refine ⟨happly, hle, hlinked, ?_⟩
    rw [← hdb3]
    obtain ⟨l, hl, hp⟩ := List.any_eq_true.mp (by unfold linkExists at hle; exact hle)
    unfold linkExists
    rw [List.any_eq_true]
    refine ⟨l, List.mem_filter.mpr ⟨hl, by simp [hkeepNew l hp]⟩, hp⟩
  | false =>
    rw [hle] at hadd
    simp only [Bool.false_eq_true, if_false] at hadd
    have hdb : { db1 with links := db1.links ++ [(finID, itemID, nextOrderIndex db1 finID)] } = db2 := by
      simpa using hadd
    subst hdb
    have hf2 : linkExists { db1 with
        links := db1.links ++ [(finID, itemID, nextOrderIndex db1 finID)] } finID itemID = true := by
      unfold linkExists
      rw [List.any_eq_true]
      exact ⟨(finID, itemID, nextOrderIndex db1 finID), by simp, by simp⟩
    have hc2 : linkExists { db1 with
        links := db1.links ++ [(finID, itemID, nextOrderIndex db1 finID)] } curID itemID = true := by
      unfold linkExists
      rw [List.any_append]
      unfold linkExists at hlinked
      rw [hlinked]
      rfl
    refine ⟨happly, hf2, hc2, ?_⟩
    have hii2 : findItemID { db1 with
        links := db1.links ++ [(finID, itemID, nextOrderIndex db1 finID)] } mv.item_key = some itemID := hii
    have hci2 : findCollID { db1 with
        links := db1.links ++ [(finID, itemID, nextOrderIndex db1 finID)] } currentKey = some curID := hci
    have hrem2 := hrem
    rw [remove_from_collection_eq _ mv.item_key currentKey itemID curID hii2 hci2] at hrem2
    have hdb3 : { db1 with
        links := (db1.links ++ [(finID, itemID, nextOrderIndex db1 finID)]).filter
          (fun l => ¬(l.2.1 == itemID && l.1 == curID)) } = db3 := by
      simpa using hrem2
    rw [← hdb3]
    unfold linkExists
    rw [List.any_eq_true]
    have hpnew : ((finID, itemID, nextOrderIndex db1 finID).1 == finID &&
        (finID, itemID, nextOrderIndex db1 finID).2.1 == itemID) = true := by simp
    refine ⟨(finID, itemID, nextOrderIndex db1 finID),
      List.mem_filter.mpr ⟨by simp, ?_⟩, hpnew⟩
    simp only [decide_eq_true_eq]
    intro hcontra
    rw [Bool.and_eq_true, beq_iff_eq, beq_iff_eq] at hcontra
    exact hne hcontra.2.symm

/-- C9 witness: a concrete move between two distinct collections — the
intermediate state holds both links, the final state holds the
destination link. -/
theorem move_add_before_remove_w :
    firstKeyWithPath [("KOLD0001", "Old"), ("KNEW0001", "New")] "Old" = some "KOLD0001" ∧
    reorgWalk [("KOLD0001", "Old"), ("KNEW0001", "New")] [] (pySplitSlash "New")
        Option.none
        ⟨[(1, "AAAAAAA1")], [⟨10, "Old", Option.none, "KOLD0001"⟩,
          ⟨11, "New", Option.none, "KNEW0001"⟩], [(10, 1, 0)], [], [], [], 100⟩ [] =
      .ok (⟨[(1, "AAAAAAA1")], [⟨10, "Old", Option.none, "KOLD0001"⟩,
          ⟨11, "New", Option.none, "KNEW0001"⟩], [(10, 1, 0)], [], [], [], 100⟩, []) ∧
    applyMove [("KOLD0001", "Old"), ("KNEW0001", "New")]
        ⟨[(1, "AAAAAAA1")], [⟨10, "Old", Option.none, "KOLD0001"⟩,
          ⟨11, "New", Option.none, "KNEW0001"⟩], [(10, 1, 0)], [], [], [], 100⟩ []
        ⟨"AAAAAAA1", "Old", "New"⟩ =
      .ok (⟨[(1, "AAAAAAA1")], [⟨10, "Old", Option.none, "KOLD0001"⟩,
          ⟨11, "New", Option.none, "KNEW0001"⟩], [(11, 1, 0)], [], [], [], 100⟩, []) ∧
    linkExists ⟨[(1, "AAAAAAA1")], [⟨10, "Old", Option.none, "KOLD0001"⟩,
          ⟨11, "New", Option.none, "KNEW0001"⟩], [(10, 1, 0), (11, 1, 0)], [], [], [], 100⟩
        11 1 = true ∧
    linkExists ⟨[(1, "AAAAAAA1")], [⟨10, "Old", Option.none, "KOLD0001"⟩,
          ⟨11, "New", Option.none, "KNEW0001"⟩], [(10, 1, 0), (11, 1, 0)], [], [], [], 100⟩
        10 1 = true ∧
    linkExists ⟨[(1, "AAAAAAA1")], [⟨10, "Old", Option.none, "KOLD0001"⟩,
          ⟨11, "New", Option.none, "KNEW0001"⟩], [(11, 1, 0)], [], [], [], 100⟩
        11 1 = true := by
  have h := move_add_before_remove [("KOLD0001", "Old"), ("KNEW0001", "New")]
    ⟨[(1, "AAAAAAA1")], [⟨10, "Old", Option.none, "KOLD0001"⟩,
      ⟨11, "New", Option.none, "KNEW0001"⟩], [(10, 1, 0)], [], [], [], 100⟩
    [] [] ⟨"AAAAAAA1", "Old", "New"⟩ "KOLD0001" "KNEW0001"
    ⟨[(1, "AAAAAAA1")], [⟨10, "Old", Option.none, "KOLD0001"⟩,
      ⟨11, "New", Option.none, "KNEW0001"⟩], [(10, 1, 0)], [], [], [], 100⟩
    ⟨[(1, "AAAAAAA1")], [⟨10, "Old", Option.none, "KOLD0001"⟩,
      ⟨11, "New", Option.none, "KNEW0001"⟩], [(10, 1, 0), (11, 1, 0)], [], [], [], 100⟩
    ⟨[(1, "AAAAAAA1")], [⟨10, "Old", Option.none, "KOLD0001"⟩,
      ⟨11, "New", Option.none, "KNEW0001"⟩], [(11, 1, 0)], [], [], [], 100⟩
    1 10 11 (by decide) (by decide) (by decide) (by decide) (by decide)
    (by decide) (by decide) (by decide) (by decide) (by decide)
  exact ⟨by decide, by decide, h.1, h.2.1, h.2.2.1, h.2.2.2⟩

end ResearchClerk
